import Mathlib

/-!
Verification development for the CUDA per-device mining worker
(`libethash-cuda/CUDAMiner.cpp`).  The C++ orchestration code is shallowly
embedded as executable Lean functions: machine `uint64_t` arithmetic is
modelled as `Nat` with explicit reduction modulo `2 ^ 64`, the stateful
search pipeline and initialisation path are modelled as explicit
state-passing functions that additionally emit a trace of observable
events (device-API calls, atomic-flag operations, produced solutions).
Cross-thread inputs (the new-work flag being set, `paused()`,
`shouldStop()`, the contents a kernel wrote into a result buffer) are
supplied by an environment oracle, one record per iteration of the
search loop.
-/

/-- Reduction of a value to the `uint64_t` range, as C truncation does. -/
def u64 (a : Nat) : Nat := a % 2 ^ 64

/-- `uint64_t` addition (wrapping). -/
def u64add (a b : Nat) : Nat := (a + b) % 2 ^ 64

/-- `uint64_t` subtraction (wrapping), for `start_nonce - m_streams_batch_size`. -/
def u64sub (a b : Nat) : Nat := (a + (2 ^ 64 - b % 2 ^ 64)) % 2 ^ 64

/-- Environment oracle for one iteration of the `while (!done)` loop of
`CUDAMiner::search`: whether `kick_miner` set the new-work flag since the
previous check, the value `paused()` returns, and per stream slot the
value `shouldStop()` returns at that slot's synchronize, the `count`
field the kernel left in the slot's result buffer, the `gid` entries of
that buffer, and finally the `shouldStop()` value at the end of the round. -/
structure RoundEnv where
  kicked : Bool
  pausedFlag : Bool
  stops : Nat → Bool
  counts : Nat → Nat
  gids : Nat → Nat → Nat
  stopEnd : Bool

/-- Observable events of `CUDAMiner::search`: device-API calls
(`set_header`, `set_target`, `run_ethash_search`), result-buffer writes
(`buffer.count = 0`), atomic new-work-flag operations (a successful
`compare_exchange_strong` consumption, a `store(false)` clearing), a
solution handed to the dispatcher, the `paused()` observation that ended
a round, and the per-round hash-rate update. -/
inductive SEvent where
  | setHeader
  | setTargetEv (t : Nat)
  | issue (slot : Nat) (base : Nat)
  | clearCount (slot : Nat)
  | consume
  | clearFlag
  | pauseMark
  | solution (slot : Nat) (nonce : Nat)
  | hashRate
  deriving DecidableEq, Repr

/-- Loop state of `CUDAMiner::search`: the running `start_nonce`
(a `uint64_t`), the atomic `m_new_work` flag, the `done` flag of the
current round, and the `count` field of each slot's result buffer. -/
structure SState where
  nonce : Nat
  newWork : Bool
  done : Bool
  bufCount : Nat → Nat

/-- One pass of the priming loop (`CUDAMiner.cpp:352-363`): clear slot
`j`'s result count, issue the batch at the current `start_nonce`, then
advance `start_nonce` by `m_batch_size` (the for-loop update). -/
def primeOne (B : Nat) (s : SState) (j : Nat) : SState × List SEvent :=
  ({ s with
      nonce := u64add s.nonce B,
      bufCount := fun k => if k = j then 0 else s.bufCount k },
   [SEvent.clearCount j, SEvent.issue j s.nonce])

/-- Sequential composition of a per-slot action over a list of slot
indices, threading state and concatenating emitted events (the inner
`for (current_index = 0; current_index < s_numStreams; ...)` loops). -/
def foldSlots (f : SState → Nat → SState × List SEvent) :
    List Nat → SState → SState × List SEvent
  | [], s => (s, [])
  | j :: rest, s =>
    let r1 := f s j
    let r2 := foldSlots f rest r1.1
    (r2.1, r1.2 ++ r2.2)

/-- The `m_new_work.compare_exchange_strong(t, false)` at the top of a
round (`CUDAMiner.cpp:373-374`): the flag (possibly just set by a kick)
is read; if true it is atomically cleared and `done` becomes true,
otherwise `done` becomes false. -/
def casStep (env : RoundEnv) (s : SState) : SState × List SEvent :=
  if s.newWork || env.kicked then
    ({ s with newWork := false, done := true }, [SEvent.consume])
  else
    ({ s with newWork := false, done := false }, [])

/-- The loop state after the round-top flag/pause checks
(`CUDAMiner.cpp:373-378`): the CAS leaves the new-work flag false, and
`done` is set when the flag was observable or mining is paused. -/
def casPauseState (env : RoundEnv) (s : SState) : SState :=
  { s with newWork := false,
           done := ((s.newWork || env.kicked) || env.pausedFlag) }

/-- One pass of the inner per-stream loop (`CUDAMiner.cpp:381-432`):
wait for slot `j`'s stream (its buffer now holds the kernel's count),
honour `shouldStop()` (clearing the new-work flag), drain the buffer —
clamping the reported count to `MAX_SEARCH_RESULTS` (`maxR`), zeroing
the count, and emitting one solution per read entry with nonce
`(start_nonce - m_streams_batch_size) + gid` — then, unless done,
reissue the slot at the current `start_nonce`; finally advance
`start_nonce` by `m_batch_size` (the for-loop update). -/
def drainSlot (B N maxR : Nat) (env : RoundEnv) (s : SState) (j : Nat) :
    SState × List SEvent :=
  let s0 := { s with bufCount := fun k => if k = j then env.counts j else s.bufCount k }
  let r1 : SState × List SEvent :=
    if env.stops j then ({ s0 with newWork := false, done := true }, [SEvent.clearFlag])
    else (s0, [])
  let s1 := r1.1
  let fc := min (s1.bufCount j) maxR
  let r2 : SState × List SEvent :=
    if fc ≠ 0 then
      ({ s1 with bufCount := fun k => if k = j then 0 else s1.bufCount k },
       SEvent.clearCount j ::
         (List.range fc).map (fun i =>
           SEvent.solution j (u64add (u64sub s1.nonce (B * N)) (env.gids j i))))
    else (s1, [])
  let s2 := r2.1
  let r3 : SState × List SEvent :=
    if s2.done then (s2, []) else (s2, [SEvent.issue j s2.nonce])
  ({ r3.1 with nonce := u64add r3.1.nonce B }, r1.2 ++ r2.2 ++ r3.2)

/-- One iteration of the `while (!done)` loop (`CUDAMiner.cpp:369-444`):
consume the new-work flag, check `paused()`, process every stream slot,
update the hash rate, and honour the end-of-round `shouldStop()` which
clears the new-work flag and breaks. -/
def searchRound (B N maxR : Nat) (env : RoundEnv) (s : SState) :
    SState × List SEvent :=
  let r1 := casStep env s
  let r2 : SState × List SEvent :=
    if r1.1.done then (r1.1, [])
    else if env.pausedFlag then ({ r1.1 with done := true }, [SEvent.pauseMark])
    else (r1.1, [])
  let r3 := foldSlots (drainSlot B N maxR env) (List.range N) r2.1
  let r4 : SState × List SEvent :=
    if env.stopEnd then ({ r3.1 with newWork := false, done := true }, [SEvent.clearFlag])
    else (r3.1, [])
  (r4.1, r1.2 ++ r2.2 ++ r3.2 ++ [SEvent.hashRate] ++ r4.2)

/-- The `while (!done)` loop, driven by one environment record per
round; the trace observed over the supplied environment prefix. -/
def searchLoop (B N maxR : Nat) : List RoundEnv → SState → SState × List SEvent
  | [], s => (s, [])
  | env :: rest, s =>
    if s.done then (s, [])
    else
      let r1 := searchRound B N maxR env s
      let r2 := searchLoop B N maxR rest r1.1
      (r2.1, r1.2 ++ r2.2)

/-- The loop state at entry of `CUDAMiner::search`: `start_nonce` is
the (64-bit) job start nonce, the round is not done, and the result
buffers are about to be cleared by the priming loop. -/
def sInit (s0 : Nat) : SState :=
  { nonce := u64 s0, newWork := false, done := false, bufCount := fun _ => 0 }

/-- `CUDAMiner::search` (`CUDAMiner.cpp:340-455`): set the header,
set the target only when it differs from `m_current_target`, prime the
`N` stream slots with consecutive batches of `B` nonces starting at
`start_nonce`, then run the round loop. -/
def searchModel (B N maxR ct tgt s0 : Nat) (envs : List RoundEnv) :
    SState × List SEvent :=
  let e0 := SEvent.setHeader :: (if ct ≠ tgt then [SEvent.setTargetEv tgt] else [])
  let r1 := foldSlots (primeOne B) (List.range N) (sInit s0)
  let r2 := searchLoop B N maxR envs r1.1
  (r2.1, e0 ++ r1.2 ++ r2.2)

/-- A round in which no new work arrives, mining is not paused, no stop
is requested and no slot reports results: the steady mining state. -/
def quietRound : RoundEnv :=
  { kicked := false, pausedFlag := false, stops := fun _ => false,
    counts := fun _ => 0, gids := fun _ _ => 0, stopEnd := false }

/-- The bases of the batches issued in a trace, in order. -/
def issueBases : List SEvent → List Nat
  | [] => []
  | SEvent.issue _ b :: r => b :: issueBases r
  | _ :: r => issueBases r

/-- The nonces of the solutions produced in a trace, in order. -/
def solutionNonces : List SEvent → List Nat
  | [] => []
  | SEvent.solution _ n :: r => n :: solutionNonces r
  | _ :: r => solutionNonces r

/-- Is this event the issuance of a batch? -/
def isIssue : SEvent → Bool
  | SEvent.issue _ _ => true
  | _ => false

/-- Is this event an observation that marks the round done (a consumed
new-work flag, a shutdown-triggered flag clear, or a pause)? -/
def isMark : SEvent → Bool
  | SEvent.consume => true
  | SEvent.clearFlag => true
  | SEvent.pauseMark => true
  | _ => false

/-- Does the trace contain no batch issuance? -/
def noIssues (l : List SEvent) : Bool := l.all (fun e => !isIssue e)

/-- Does the trace contain a done-marking observation? -/
def hasMark (l : List SEvent) : Bool := l.any isMark

/-- After the first done-marking observation in the trace, no batch is
issued. -/
def cleanAfterMark : List SEvent → Bool
  | [] => true
  | e :: r => if isMark e then noIssues r else cleanAfterMark r

/-- Is this event a successful consumption of the new-work flag? -/
def isConsume : SEvent → Bool
  | SEvent.consume => true
  | _ => false

/-- Number of successful consumptions of the new-work flag in a trace. -/
def consumeCount (l : List SEvent) : Nat :=
  l.countP isConsume

/-- The set of nonces covered by a list of batch bases, each batch
covering `B` consecutive nonces. -/
def rangesUnion (B : Nat) : List Nat → Finset Nat
  | [] => ∅
  | b :: r => Finset.Ico b (b + B) ∪ rangesUnion B r

/-! ## The initialisation path (`CUDAMiner::init`) -/

/-- The epoch context obtained from `ethash::get_global_epoch_context`
(`CUDAMiner.cpp:101-105`): light-cache item count and byte size, full
dataset item count and byte size. -/
structure EpochContext where
  lightNumItems : Nat
  lightSize : Nat
  dagNumItems : Nat
  dagSize : Nat

/-- Observable device-API events of `CUDAMiner::init`: device selection,
the reset/configuration of the device, host and device allocations
(fresh pointers recorded), the light-cache upload, `set_constants`, the
per-stream pinned-buffer and stream creations, the DAG generation
kernel, and the sequential-load broadcast. -/
inductive InitEvent where
  | setDevice (d : Nat)
  | deviceReset
  | setDeviceFlags
  | setCacheConfig
  | mallocLight (p : Nat)
  | memcpyLight
  | mallocDag (p : Nat)
  | setConstants
  | mallocHost (i : Nat)
  | streamCreate (i : Nat)
  | generateDag
  | notifyAll
  deriving DecidableEq, Repr

/-- Per-worker device state touched by `CUDAMiner::init`: the `m_dag`
pointer, the held `m_dag_size` item count, the per-device `m_light`
pointer table, `m_current_target`, a fresh-pointer allocator modelling
`cudaMalloc`'s returned addresses, and the shared `s_dagLoadIndex`. -/
structure MinerState where
  dag : Option Nat
  dag_size : Nat
  light : Nat → Option Nat
  current_target : Nat
  nextPtr : Nat
  dagLoadIndex : Nat

/-- Inputs of one `init` call: the DAG-load mode, the worker index
`m_index`, the value of the shared counter `s_dagLoadIndex` observed at
each pass of the barrier loop, the `shouldStop()` value after the
barrier, the per-worker device override (`s_devices[m_index]` when it is
`> -1`), the device count, the stream count and the device's total
global memory. -/
structure InitInput where
  seqMode : Bool
  index : Nat
  cseq : Nat → Nat
  stopFlag : Bool
  override : Option Nat
  numDevices : Nat
  numStreams : Nat
  totalGlobalMem : Nat

/-- The sequential-load barrier loop (`CUDAMiner.cpp:64-72`):
`while (s_dagLoadIndex < m_index)` re-blocks on a 3-second timed wait;
the loop condition never consults `shouldStop()`.  `fuel` bounds how
many passes we observe; `none` means the loop was still waiting after
`fuel` passes. -/
def seqWaitFuel : Nat → (Nat → Nat) → Nat → Nat → Option Unit
  | 0, cseq, k, idx => if cseq k < idx then none else some ()
  | fuel + 1, cseq, k, idx =>
    if cseq k < idx then seqWaitFuel fuel cseq (k + 1) idx else some ()

/-- Device-index clamping (`CUDAMiner.cpp:89`):
`m_device_num = device < numDevices - 1 ? device : numDevices - 1`. -/
def selectDevice (device numDevices : Nat) : Nat :=
  if device < numDevices - 1 then device else numDevices - 1

/-- The allocation/copy/generation phase after the reset decision
(`CUDAMiner.cpp:130-183`): allocate the light cache if absent, always
copy the light-cache bytes in, reallocate the DAG buffer iff the item
count changed or no DAG pointer is held, call `set_constants`, and — if
the same condition still holds for the updated DAG pointer — create the
stream slots, zero `m_current_target` and generate the DAG; finally
record `m_dag`, `m_dag_size`, advance `s_dagLoadIndex` and notify
waiters when in sequential mode. -/
def initPhase2 (nStreams : Nat) (seqMode : Bool) (ctx : EpochContext)
    (dnum : Nat) (st : MinerState) (ev0 : List InitEvent) :
    Bool × MinerState × List InitEvent :=
  let dag0 := st.dag
  let held := st.dag_size
  let r1 : Nat × Nat × List InitEvent :=
    match st.light dnum with
    | some p => (p, st.nextPtr, [])
    | none => (st.nextPtr, st.nextPtr + 1, [InitEvent.mallocLight st.nextPtr])
  let lightPtr := r1.1
  let ptr1 := r1.2.1
  let r2 : Option Nat × Nat × List InitEvent :=
    if ctx.dagNumItems ≠ held ∨ dag0 = none then
      (some ptr1, ptr1 + 1, [InitEvent.mallocDag ptr1])
    else (dag0, ptr1, [])
  let dagOpt := r2.1
  let r3 : Nat × List InitEvent :=
    if ctx.dagNumItems ≠ held ∨ dagOpt = none then
      (0, (List.range nStreams).flatMap
            (fun i => [InitEvent.mallocHost i, InitEvent.streamCreate i]) ++
          [InitEvent.generateDag])
    else (st.current_target, [])
  let stFin : MinerState :=
    { dag := dagOpt, dag_size := ctx.dagNumItems,
      light := fun d => if d = dnum then some lightPtr else st.light d,
      current_target := r3.1, nextPtr := r2.2.1,
      dagLoadIndex := st.dagLoadIndex + 1 }
  let evNotify : List InitEvent := if seqMode then [InitEvent.notifyAll] else []
  (true, stFin,
   ev0 ++ r1.2.2 ++ [InitEvent.memcpyLight] ++ r2.2.2 ++ [InitEvent.setConstants] ++
     r3.2 ++ evNotify)

/-- The reset decision (`CUDAMiner.cpp:109-129`): when the item count
changed or no DAG is held, first check the device's total memory against
the required DAG size — returning `false` before any allocation when it
is insufficient — then reset the device (dropping the held light and DAG
pointers) and reconfigure it; otherwise keep the device state. -/
def initResource (nStreams : Nat) (seqMode : Bool) (mem : Nat)
    (ctx : EpochContext) (dnum : Nat) (st : MinerState) :
    Bool × MinerState × List InitEvent :=
  if ctx.dagNumItems ≠ st.dag_size ∨ st.dag = none then
    if mem < ctx.dagSize then (false, st, [])
    else
      initPhase2 nStreams seqMode ctx dnum
        { st with dag := none,
                  light := fun d => if d = dnum then none else st.light d }
        [InitEvent.deviceReset, InitEvent.setDeviceFlags, InitEvent.setCacheConfig]
  else initPhase2 nStreams seqMode ctx dnum st []

/-- Device resolution and selection (`CUDAMiner.cpp:80-107`): the
configured override (when `> -1`) or the worker's own index; failure
when zero devices are present; otherwise clamp to the last device, set
it current and continue with the resource phase. -/
def initDevice (inp : InitInput) (ctx : EpochContext) (st : MinerState) :
    Bool × MinerState × List InitEvent :=
  let device := inp.override.getD inp.index
  if inp.numDevices = 0 then (false, st, [])
  else
    let dnum := selectDevice device inp.numDevices
    let r := initResource inp.numStreams inp.seqMode inp.totalGlobalMem ctx dnum st
    (r.1, r.2.1, InitEvent.setDevice dnum :: r.2.2)

/-- `CUDAMiner::init` (`CUDAMiner.cpp:60-184`): in sequential DAG-load
mode first sit out the barrier loop (which checks only the shared
counter), then honour a pending `shouldStop()` by returning `false`;
then resolve the device and run the resource phase.  `none` means the
barrier loop had not finished within the observed `fuel` passes. -/
def initModel (fuel : Nat) (inp : InitInput) (ctx : EpochContext)
    (st : MinerState) : Option (Bool × MinerState × List InitEvent) :=
  if inp.seqMode then
    match seqWaitFuel fuel inp.cseq 0 inp.index with
    | none => none
    | some _ =>
      if inp.stopFlag then some (false, st, [])
      else some (initDevice inp ctx st)
  else some (initDevice inp ctx st)

/-! ## The worker loop (`CUDAMiner::workLoop`) -/

/-- The 64-bit device-side target (`CUDAMiner.cpp:226`):
`(uint64_t)(u64)((u256)current.boundary >> 192)` — the 256-bit boundary
shifted right by 192 bits, truncated to 64 bits. -/
def upper64OfBoundary (boundary : Nat) : Nat := (boundary >>> 192) % 2 ^ 64

/-- Observable events of `CUDAMiner::workLoop`: one marker per executed
loop iteration, and the `cudaDeviceReset()` on the normal exit path. -/
inductive WEvent where
  | iterEv
  | deviceReset
  deriving DecidableEq, Repr

/-- Outcome of one iteration of the `while (!shouldStop())` body
(`CUDAMiner.cpp:196-230`): either the iteration completes and the loop
continues (no work / epoch init / a search pass), or a device-API call
inside it raises `cuda_runtime_error` with the given message. -/
inductive LoopOutcome where
  | continueLoop
  | raiseGpu (msg : String)

/-- `CUDAMiner::workLoop` (`CUDAMiner.cpp:186-241`): run the loop body
per script entry; when the loop exits normally (script exhausted, i.e.
`shouldStop()` or the `init`-failure break) reset the device inside the
`try`; when a `cuda_runtime_error` escapes an iteration, the handler
re-raises it as a runtime error prefixed with "GPU error: ", without
any device reset. -/
def workLoopModel : List LoopOutcome → List WEvent × Except String Unit
  | [] => ([WEvent.deviceReset], Except.ok ())
  | o :: rest =>
    match o with
    | LoopOutcome.continueLoop =>
      let r := workLoopModel rest
      (WEvent.iterEv :: r.1, r.2)
    | LoopOutcome.raiseGpu m => ([WEvent.iterEv], Except.error ("GPU error: " ++ m))

/-! ## Specification predicates and concrete fixtures -/

/-- The nonce-range partition property of C1 for the list of issued
batch bases: the bases are `s0, s0+B, ..., s0+(r·N-1)·B` in order (so
each slot's base advances by `B` per slot within a round and by `N·B`
from one of its batches to the next), they advance monotonically, the
batches of `B` nonces they head are pairwise disjoint, and their union
is exactly `[s0, s0 + r·N·B)`. -/
def noncePartitionSpec (B N s0 r : Nat) (bases : List Nat) : Prop :=
  bases = (List.range (r * N)).map (fun k => s0 + k * B) ∧
  (∀ rd j, rd < r → j < N →
    bases[rd * N + j]? = some (s0 + (rd * N + j) * B)) ∧
  (∀ rd j, rd + 1 < r → j < N →
    bases[(rd + 1) * N + j]? = some (s0 + (rd * N + j) * B + N * B)) ∧
  List.Pairwise (· ≤ ·) bases ∧
  List.Pairwise
    (fun a b => Disjoint (Finset.Ico a (a + B)) (Finset.Ico b (b + B))) bases ∧
  rangesUnion B bases = Finset.Ico s0 (s0 + r * N * B)

/-- A concrete epoch context for witnesses. -/
def ctx0 : EpochContext :=
  { lightNumItems := 4, lightSize := 64, dagNumItems := 8, dagSize := 1024 }

/-- A concrete fresh miner state (no DAG, no light caches held). -/
def st0 : MinerState :=
  { dag := none, dag_size := 0, light := fun _ => none, current_target := 0,
    nextPtr := 1, dagLoadIndex := 0 }

/-- A concrete miner state already holding a DAG of `ctx0`'s item count
and a light cache on device 0, for the reuse-path witness. -/
def stHeld : MinerState :=
  { dag := some 7, dag_size := 8, light := fun d => if d = 0 then some 3 else none,
    current_target := 5, nextPtr := 9, dagLoadIndex := 2 }

/-- A concrete `init` input: sequential mode, worker index 1, the shared
load counter stuck at 0, shutdown requested. -/
def stuckInput : InitInput :=
  { seqMode := true, index := 1, cseq := fun _ => 0, stopFlag := true,
    override := none, numDevices := 1, numStreams := 2, totalGlobalMem := 2048 }

/-- A concrete `init` input in parallel mode with one device. -/
def plainInput : InitInput :=
  { seqMode := false, index := 0, cseq := fun _ => 0, stopFlag := false,
    override := none, numDevices := 1, numStreams := 2, totalGlobalMem := 2048 }

/-- A concrete `init` input whose override index (5) exceeds the device
count (2). -/
def bigIndexInput : InitInput :=
  { seqMode := false, index := 0, cseq := fun _ => 0, stopFlag := false,
    override := some 5, numDevices := 2, numStreams := 2, totalGlobalMem := 2048 }

/-- A concrete sequential-mode `init` input whose barrier is already
satisfied (counter 3 ≥ index 1) and with shutdown requested. -/
def passedInput : InitInput :=
  { seqMode := true, index := 1, cseq := fun _ => 3, stopFlag := true,
    override := none, numDevices := 1, numStreams := 2, totalGlobalMem := 2048 }

/-- A round environment in which every slot's result buffer reports
count 5 with gid entries 0,1,2,... -/
def overflowEnv : RoundEnv :=
  { kicked := false, pausedFlag := false, stops := fun _ => false,
    counts := fun _ => 5, gids := fun _ i => i, stopEnd := false }

/-- A quiet round during which `kick_miner` set the new-work flag. -/
def kickedRound : RoundEnv :=
  { quietRound with kicked := true }

/-- A concrete mid-search loop state. -/
def primedState : SState :=
  { nonce := 100, newWork := false, done := false, bufCount := fun _ => 0 }

/-- Invariant of an intra-round stage of the search loop (clearing,
draining and reissuing a slot, or a sequence of such): the stage's
trace issues no batch after a done-marking observation, a done-marking
in the trace forces the resulting `done` flag, an already-done round
stays done and issues nothing, and no stage but the round-top CAS
consumes the new-work flag. -/
def stageOK (s : SState) (out : SState × List SEvent) : Prop :=
  cleanAfterMark out.2 = true ∧
  (hasMark out.2 = true → out.1.done = true) ∧
  (s.done = true → out.1.done = true ∧ noIssues out.2 = true) ∧
  consumeCount out.2 = 0

/-! ## Trace helper lemmas -/

theorem issueBases_append (a b : List SEvent) :
    issueBases (a ++ b) = issueBases a ++ issueBases b := by
  induction a with
  | nil => rfl
  | cons e r ih => cases e <;> simp [issueBases, ih]

theorem solutionNonces_append (a b : List SEvent) :
    solutionNonces (a ++ b) = solutionNonces a ++ solutionNonces b := by
  induction a with
  | nil => rfl
  | cons e r ih => cases e <;> simp [solutionNonces, ih]

theorem solutionNonces_map_solution (j : Nat) (f : Nat → Nat) (l : List Nat) :
    solutionNonces (l.map (fun i => SEvent.solution j (f i))) = l.map f := by
  induction l with
  | nil => rfl
  | cons x r ih => simp [solutionNonces, ih]

theorem noIssues_append (a b : List SEvent) :
    noIssues (a ++ b) = (noIssues a && noIssues b) := by
  simp [noIssues, List.all_append]

theorem hasMark_append (a b : List SEvent) :
    hasMark (a ++ b) = (hasMark a || hasMark b) := by
  simp [hasMark, List.any_append]

theorem consumeCount_append (a b : List SEvent) :
    consumeCount (a ++ b) = consumeCount a + consumeCount b := by
  simp [consumeCount, List.countP_append]

theorem cleanAfterMark_of_noMark (l : List SEvent) (h : hasMark l = false) :
    cleanAfterMark l = true := by
  induction l with
  | nil => rfl
  | cons e r ih =>
    have h1 : isMark e = false ∧ r.any isMark = false := by
      simpa [hasMark, Bool.or_eq_false_iff] using h
    have hsplit : cleanAfterMark (e :: r)
        = if isMark e then noIssues r else cleanAfterMark r := rfl
    rw [hsplit, h1.1]
    simpa using ih h1.2

theorem noIssues_cleanAfterMark (l : List SEvent) (h : noIssues l = true) :
    cleanAfterMark l = true := by
  induction l with
  | nil => rfl
  | cons e r ih =>
    have h1 : (!isIssue e) = true ∧ r.all (fun x => !isIssue x) = true := by
      simpa [noIssues, List.all_cons] using h
    have hr : noIssues r = true := h1.2
    have hsplit : cleanAfterMark (e :: r)
        = if isMark e then noIssues r else cleanAfterMark r := rfl
    by_cases he : isMark e = true
    · rw [hsplit, if_pos he]; exact hr
    · rw [hsplit, if_neg he]; exact ih hr

theorem clean_append (a b : List SEvent) (ha : cleanAfterMark a = true)
    (hb : cleanAfterMark b = true) (hab : hasMark a = true → noIssues b = true) :
    cleanAfterMark (a ++ b) = true := by
  induction a with
  | nil => simpa using hb
  | cons e r ih =>
    have hsplit : cleanAfterMark ((e :: r) ++ b)
        = if isMark e then noIssues (r ++ b) else cleanAfterMark (r ++ b) := rfl
    have hsplita : cleanAfterMark (e :: r)
        = if isMark e then noIssues r else cleanAfterMark r := rfl
    by_cases he : isMark e = true
    · have hni : noIssues b = true := hab (by simp [hasMark, List.any_cons, he])
      have har : noIssues r = true := by rw [hsplita, if_pos he] at ha; exact ha
      rw [hsplit, if_pos he, noIssues_append, har, hni]
      rfl
    · have har : cleanAfterMark r = true := by rw [hsplita, if_neg he] at ha; exact ha
      rw [hsplit, if_neg he]
      refine ih har (fun hm => hab ?_)
      simp [hasMark, List.any_cons] at hm ⊢
      exact Or.inr hm

/-! ## C7: the device-side 64-bit target -/

/-- C7: for every job, the 64-bit target handed to the device-side
search — `(uint64_t)((u256)boundary >> 192)` — equals the upper 64 bits
of the job's 256-bit boundary, i.e. the boundary divided by `2 ^ 192`;
the final 64-bit truncation loses nothing because the boundary is a
256-bit value. -/
theorem upper64_boundary_correct (boundary : Nat) (h : boundary < 2 ^ 256) :
    upper64OfBoundary boundary = boundary / 2 ^ 192 := by
  unfold upper64OfBoundary
  rw [Nat.shiftRight_eq_div_pow]
  refine Nat.mod_eq_of_lt (Nat.div_lt_of_lt_mul ?_)
  calc boundary < 2 ^ 256 := h
    _ = 2 ^ 192 * 2 ^ 64 := by norm_num

theorem upper64_boundary_correct_witness :
    (5 * 2 ^ 192 + 7 : Nat) < 2 ^ 256 ∧
      upper64OfBoundary (5 * 2 ^ 192 + 7) = (5 * 2 ^ 192 + 7) / 2 ^ 192 :=
  ⟨by norm_num, upper64_boundary_correct (5 * 2 ^ 192 + 7) (by norm_num)⟩

/-! ## C8: worker-loop exit paths -/

/-- C8: on the normal (non-exceptional) exit of the worker loop the
device is explicitly reset; on the path where a device error is raised
during the loop, no reset is performed and the error is re-raised
wrapped with a "GPU error: " prefix. -/
theorem workloop_reset_paths (script : List LoopOutcome) :
    ((workLoopModel script).2 = Except.ok () →
        WEvent.deviceReset ∈ (workLoopModel script).1) ∧
    (∀ e, (workLoopModel script).2 = Except.error e →
        WEvent.deviceReset ∉ (workLoopModel script).1 ∧
          ∃ m, e = "GPU error: " ++ m) := by
  induction script with
  | nil => simp [workLoopModel]
  | cons o rest ih =>
    cases o with
    | continueLoop =>
      refine ⟨fun h => ?_, fun e he => ?_⟩
      · exact List.mem_cons_of_mem _ (ih.1 h)
      · obtain ⟨h1, h2⟩ := ih.2 e he
        refine ⟨?_, h2⟩
        simp only [workLoopModel, List.mem_cons]
        rintro (h | h)
        · exact WEvent.noConfusion h
        · exact h1 h
    | raiseGpu m =>
      refine ⟨fun h => ?_, fun e he => ?_⟩
      · exact absurd h (by simp [workLoopModel])
      · constructor
        · simp [workLoopModel]
        · exact ⟨m, by simpa [workLoopModel] using he.symm⟩

theorem workloop_reset_paths_witness :
    ((workLoopModel [LoopOutcome.continueLoop]).2 = Except.ok () →
        WEvent.deviceReset ∈ (workLoopModel [LoopOutcome.continueLoop]).1) ∧
    (∀ e, (workLoopModel [LoopOutcome.continueLoop]).2 = Except.error e →
        WEvent.deviceReset ∉ (workLoopModel [LoopOutcome.continueLoop]).1 ∧
          ∃ m, e = "GPU error: " ++ m) :=
  workloop_reset_paths [LoopOutcome.continueLoop]

/-! ## C10: device-index clamping -/

/-- C10: a configured device index (override or the worker's own index)
that is at least the number of available devices does not make `init`
fail: the last device (index `numDevices - 1`) is silently selected and
initialisation proceeds; `init` fails for device absence only when the
device count is exactly zero. -/
theorem device_clamp_select (fuel : Nat) (inp : InitInput) (ctx : EpochContext)
    (st : MinerState) (hseq : inp.seqMode = false) (h1 : 1 ≤ inp.numDevices)
    (h2 : inp.numDevices ≤ inp.override.getD inp.index) :
    selectDevice (inp.override.getD inp.index) inp.numDevices
        = inp.numDevices - 1 ∧
    (∃ b st2 evs, initModel fuel inp ctx st = some (b, st2, evs) ∧
        evs.head? = some (InitEvent.setDevice (inp.numDevices - 1))) ∧
    (∀ (fuel2 : Nat) (inp2 : InitInput) (ctx2 : EpochContext) (st2 : MinerState),
        inp2.seqMode = false → inp2.numDevices = 0 →
        initModel fuel2 inp2 ctx2 st2 = some (false, st2, [])) := by
  have hsel : selectDevice (inp.override.getD inp.index) inp.numDevices
      = inp.numDevices - 1 := by
    rw [selectDevice, if_neg]; omega
  refine ⟨hsel, ?_, ?_⟩
  · rw [initModel, if_neg (by simp [hseq]), initDevice,
      if_neg (by omega), hsel]
    exact ⟨_, _, _, rfl, rfl⟩
  · intro fuel2 inp2 ctx2 st2 hseq2 hnd2
    rw [initModel, if_neg (by simp [hseq2]), initDevice, if_pos hnd2]

theorem device_clamp_select_witness :
    (selectDevice (bigIndexInput.override.getD bigIndexInput.index)
        bigIndexInput.numDevices = bigIndexInput.numDevices - 1 ∧
      (∃ b st2 evs, initModel 0 bigIndexInput ctx0 st0 = some (b, st2, evs) ∧
          evs.head? = some (InitEvent.setDevice (bigIndexInput.numDevices - 1))) ∧
      (∀ (fuel2 : Nat) (inp2 : InitInput) (ctx2 : EpochContext) (st2 : MinerState),
          inp2.seqMode = false → inp2.numDevices = 0 →
          initModel fuel2 inp2 ctx2 st2 = some (false, st2, []))) :=
  device_clamp_select 0 bigIndexInput ctx0 st0 (by decide) (by decide) (by decide)

/-! ## C3: insufficient memory checked before allocation -/

/-- C3: when the dataset must be (re)built (item count changed or no
DAG held) and the device's total global memory is smaller than the
required DAG size, `init` returns `false` with the worker state
unchanged and without performing any device allocation or reset — the
only device interaction is selecting the device. -/
theorem insufficient_memory_no_alloc (fuel : Nat) (inp : InitInput)
    (ctx : EpochContext) (st : MinerState) (hseq : inp.seqMode = false)
    (hnd : inp.numDevices ≠ 0)
    (hrb : ctx.dagNumItems ≠ st.dag_size ∨ st.dag = none)
    (hmem : inp.totalGlobalMem < ctx.dagSize) :
    initModel fuel inp ctx st =
      some (false, st,
        [InitEvent.setDevice
          (selectDevice (inp.override.getD inp.index) inp.numDevices)]) := by
  rw [initModel, if_neg (by simp [hseq]), initDevice, if_neg hnd]
  simp only [initResource, if_pos hrb, if_pos hmem]

theorem insufficient_memory_no_alloc_witness :
    initModel 0 plainInput
        { lightNumItems := 4, lightSize := 64, dagNumItems := 8, dagSize := 4096 }
        st0 =
      some (false, st0,
        [InitEvent.setDevice
          (selectDevice (plainInput.override.getD plainInput.index)
            plainInput.numDevices)]) :=
  insufficient_memory_no_alloc 0 plainInput _ st0 (by decide) (by decide)
    (Or.inr rfl) (by decide)

/-! ## C4: dataset reuse on unchanged epoch -/

/-- C4: a call to `init` with an epoch whose dataset item count equals
the held `m_dag_size` and with a DAG buffer already present keeps the
device state: no device reset, no DAG reallocation (the `m_dag` pointer
is preserved), while the light-cache bytes are copied to the device
unconditionally. -/
theorem dag_reuse_no_realloc (fuel : Nat) (inp : InitInput) (ctx : EpochContext)
    (st : MinerState) (p : Nat) (hseq : inp.seqMode = false)
    (hnd : inp.numDevices ≠ 0) (heq : ctx.dagNumItems = st.dag_size)
    (hdag : st.dag = some p) :
    ∃ st2 evs, initModel fuel inp ctx st = some (true, st2, evs) ∧
      st2.dag = some p ∧ InitEvent.deviceReset ∉ evs ∧
      (∀ q, InitEvent.mallocDag q ∉ evs) ∧ InitEvent.memcpyLight ∈ evs := by
  have hnrb : ¬ (ctx.dagNumItems ≠ st.dag_size ∨ st.dag = none) := by
    simp [heq, hdag]
  rw [initModel, if_neg (by simp [hseq]), initDevice, if_neg hnd]
  simp only [initResource, if_neg hnrb, initPhase2, hseq]
  rcases hl : st.light (selectDevice (inp.override.getD inp.index) inp.numDevices)
    with _ | q
  · refine ⟨_, _, rfl, hdag, ?_, ?_, ?_⟩
    · simp
    · intro q2; simp
    · simp
  · refine ⟨_, _, rfl, hdag, ?_, ?_, ?_⟩
    · simp
    · intro q2; simp
    · simp

theorem dag_reuse_no_realloc_witness :
    ∃ st2 evs, initModel 0 plainInput ctx0 stHeld = some (true, st2, evs) ∧
      st2.dag = some 7 ∧ InitEvent.deviceReset ∉ evs ∧
      (∀ q, InitEvent.mallocDag q ∉ evs) ∧ InitEvent.memcpyLight ∈ evs :=
  dag_reuse_no_realloc 0 plainInput ctx0 stHeld 7 (by decide) (by decide) rfl rfl

/-! ## Wrapping-arithmetic lemmas -/

theorem u64add_lt (a b : Nat) : u64add a b < 2 ^ 64 :=
  Nat.mod_lt _ (by norm_num)

theorem u64add_zero_eq (a : Nat) (h : a < 2 ^ 64) : u64add a 0 = a := by
  simp only [u64add, Nat.add_zero]
  omega

theorem u64add_mod_left (a b : Nat) : u64add (a % 2 ^ 64) b = u64add a b := by
  simp [u64add, Nat.mod_add_mod]

theorem u64add_add (a b c : Nat) : u64add (u64add a b) c = u64add a (b + c) := by
  simp [u64add, Nat.mod_add_mod, Nat.add_assoc]

/-! ## Quiet-round trace characterisation (for C1) -/

theorem foldSlots_cons (f : SState → Nat → SState × List SEvent) (j : Nat)
    (rest : List Nat) (s : SState) :
    foldSlots f (j :: rest) s =
      ((foldSlots f rest (f s j).1).1,
       (f s j).2 ++ (foldSlots f rest (f s j).1).2) := rfl

theorem searchLoop_cons (B N maxR : Nat) (env : RoundEnv) (rest : List RoundEnv)
    (s : SState) :
    searchLoop B N maxR (env :: rest) s =
      if s.done then (s, [])
      else ((searchLoop B N maxR rest (searchRound B N maxR env s).1).1,
            (searchRound B N maxR env s).2 ++
              (searchLoop B N maxR rest (searchRound B N maxR env s).1).2) := rfl

theorem foldSlots_prime_spec (B : Nat) :
    ∀ (js : List Nat) (s : SState), s.nonce < 2 ^ 64 →
      (foldSlots (primeOne B) js s).1.done = s.done ∧
      (foldSlots (primeOne B) js s).1.newWork = s.newWork ∧
      (foldSlots (primeOne B) js s).1.nonce = u64add s.nonce (js.length * B) ∧
      issueBases (foldSlots (primeOne B) js s).2 =
        (List.range js.length).map (fun k => u64add s.nonce (k * B)) := by
  intro js
  induction js with
  | nil =>
    intro s hn
    refine ⟨rfl, rfl, ?_, rfl⟩
    simp [foldSlots, u64add_zero_eq s.nonce hn]
  | cons j rest ih =>
    intro s hn
    have hstep : primeOne B s j =
        ({ s with nonce := u64add s.nonce B,
                  bufCount := fun k => if k = j then 0 else s.bufCount k },
         [SEvent.clearCount j, SEvent.issue j s.nonce]) := rfl
    obtain ⟨h1, h2, h3, h4⟩ := ih
      { s with nonce := u64add s.nonce B,
               bufCount := fun k => if k = j then 0 else s.bufCount k }
      (u64add_lt s.nonce B)
    dsimp only at h1 h2 h3 h4
    rw [foldSlots_cons, hstep]
    dsimp only
    refine ⟨h1, h2, ?_, ?_⟩
    · rw [h3, u64add_add, List.length_cons]
      congr 1
      rw [Nat.succ_mul]
      ring
    · rw [issueBases_append, h4, List.length_cons,
        List.range_succ_eq_map, List.map_cons, List.map_map]
      show s.nonce :: _ = _
      congr 1
      · simp [u64add_zero_eq s.nonce hn]
      · apply List.map_congr_left
        intro k _
        simp only [Function.comp_apply, u64add_add]
        congr 1
        rw [Nat.succ_mul]
        ring

theorem map_range_add_u64 (s0 B a b : Nat) :
    (List.range (a + b)).map (fun k => u64add s0 (k * B)) =
      (List.range a).map (fun k => u64add s0 (k * B)) ++
        (List.range b).map (fun k => u64add (u64add s0 (a * B)) (k * B)) := by
  rw [List.range_add, List.map_append, List.map_map]
  congr 1
  apply List.map_congr_left
  intro k _
  simp only [Function.comp_apply, u64add_add]
  congr 1
  ring

theorem rangesUnion_map_range (B : Nat) :
    ∀ (m s0 : Nat),
      rangesUnion B ((List.range m).map (fun k => s0 + k * B)) =
        Finset.Ico s0 (s0 + m * B) := by
  intro m
  induction m with
  | zero => intro s0; simp [rangesUnion]
  | succ n ih =>
    intro s0
    rw [List.range_succ_eq_map, List.map_cons, List.map_map]
    have h1 : (List.range n).map ((fun k => s0 + k * B) ∘ Nat.succ) =
        (List.range n).map (fun k => (s0 + B) + k * B) := by
      apply List.map_congr_left
      intro k _
      simp only [Function.comp_apply]
      rw [Nat.succ_mul]
      ring
    rw [h1]
    have h2 : rangesUnion B
          ((s0 + 0 * B) :: (List.range n).map (fun k => (s0 + B) + k * B))
        = Finset.Ico (s0 + 0 * B) (s0 + 0 * B + B) ∪
            rangesUnion B ((List.range n).map (fun k => (s0 + B) + k * B)) := rfl
    rw [h2, ih (s0 + B), show s0 + 0 * B = s0 by ring,
      Finset.Ico_union_Ico_eq_Ico (Nat.le_add_right s0 B)
        (Nat.le_add_right (s0 + B) (n * B))]
    congr 1
    rw [Nat.succ_mul]
    ring

/-! ## C1: the nonce-range partition (corrected for 64-bit wrap) -/

/-- C1 counterexample: with one stream, batch size 1 and
`startNonce = 2^64 - 1`, the second issued batch base wraps around to
0 (the `uint64_t` addition `start_nonce += m_batch_size` overflows):
the issued bases are `[2^64 - 1, 0]`, so they do not advance
monotonically and their union is not the contiguous interval
`[startNonce, startNonce + r·N·B)` the claim requires. -/
theorem nonce_ranges_cex :
    issueBases (searchModel 1 1 4 0 1 (2 ^ 64 - 1) [quietRound]).2
        = [2 ^ 64 - 1, 0] ∧
      ¬ List.Pairwise (· ≤ ·)
        (issueBases (searchModel 1 1 4 0 1 (2 ^ 64 - 1) [quietRound]).2) := by
  constructor
  · decide
  · decide

/-! ## C2 and C9: draining a stream slot -/

/-- Every drain produces at most `maxR` (`MAX_SEARCH_RESULTS`)
solutions, whatever the buffer reports. -/
theorem drain_length_le (B N maxR : Nat) (env : RoundEnv) (s : SState)
    (j : Nat) :
    (solutionNonces (drainSlot B N maxR env s j).2).length ≤ maxR := by
  by_cases hfc : min (env.counts j) maxR = 0
  · by_cases hs : env.stops j = true <;>
      simp [drainSlot, hs, hfc, solutionNonces_append, solutionNonces] <;>
      split <;> simp [solutionNonces]
  · by_cases hs : env.stops j = true <;>
      simp [drainSlot, hs, hfc, solutionNonces_append, solutionNonces,
        solutionNonces_map_solution] <;>
      split <;> simp [solutionNonces] <;> omega

/-- A drain whose clamped count is nonzero yields the clamped solution
list with the `(start_nonce - m_streams_batch_size) + gid` nonces, a
zeroed buffer count and the count-reset event. -/
theorem drain_sols_spec (B N maxR : Nat) (env : RoundEnv) (s : SState)
    (j : Nat) (hfc : ¬ (min (env.counts j) maxR = 0)) :
    solutionNonces (drainSlot B N maxR env s j).2 =
      (List.range (min (env.counts j) maxR)).map
        (fun i => u64add (u64sub s.nonce (B * N)) (env.gids j i)) ∧
    (drainSlot B N maxR env s j).1.bufCount j = 0 ∧
    SEvent.clearCount j ∈ (drainSlot B N maxR env s j).2 := by
  refine ⟨?_, ?_, ?_⟩
  · by_cases hs : env.stops j = true <;>
      simp [drainSlot, hs, hfc, solutionNonces_append, solutionNonces,
        solutionNonces_map_solution] <;>
      split <;> simp [solutionNonces]
  · by_cases hs : env.stops j = true <;>
      simp [drainSlot, hs, hfc] <;> split <;> simp
  · by_cases hs : env.stops j = true <;>
      simp [drainSlot, hs, hfc]

/-- C2 (amended): a drain of a slot whose buffer reports count `k ≥ 1`
produces exactly `min k MAX_SEARCH_RESULTS` candidate solutions (the
reported count clamped to the result-array capacity, which is the whole
count whenever `k ≤ MAX_SEARCH_RESULTS`), each with nonce
`(start_nonce - batchSize·numStreams) + gid`, and the buffer's count
field is zero after the drain. -/
theorem drain_lossless_clamped (B N maxR : Nat) (env : RoundEnv) (s : SState)
    (j : Nat) (hmax : 1 ≤ maxR) (hk : 1 ≤ env.counts j) :
    solutionNonces (drainSlot B N maxR env s j).2 =
      (List.range (min (env.counts j) maxR)).map
        (fun i => u64add (u64sub s.nonce (B * N)) (env.gids j i)) ∧
    (drainSlot B N maxR env s j).1.bufCount j = 0 ∧
    SEvent.clearCount j ∈ (drainSlot B N maxR env s j).2 :=
  drain_sols_spec B N maxR env s j (by omega)

/-- C2 counterexample: with `MAX_SEARCH_RESULTS = 4` and a slot buffer
reporting count 5, the drain produces 4 solutions, not the 5 the claim
requires ("exactly k candidate solutions are produced"). -/
theorem drain_lossless_cex :
    (solutionNonces (drainSlot 1 1 4 overflowEnv primedState 0).2).length = 4 ∧
      overflowEnv.counts 0 = 5 ∧ (4 : Nat) ≠ 5 := by decide

theorem drain_lossless_clamped_witness :
    solutionNonces (drainSlot 1 1 4 overflowEnv primedState 0).2 =
      (List.range (min (overflowEnv.counts 0) 4)).map
        (fun i => u64add (u64sub primedState.nonce (1 * 1))
          (overflowEnv.gids 0 i)) ∧
    (drainSlot 1 1 4 overflowEnv primedState 0).1.bufCount 0 = 0 ∧
    SEvent.clearCount 0 ∈ (drainSlot 1 1 4 overflowEnv primedState 0).2 :=
  drain_lossless_clamped 1 1 4 overflowEnv primedState 0 (by decide) (by decide)

/-- C9: the number of solutions produced by a drain never exceeds the
compile-time capacity `MAX_SEARCH_RESULTS` (`maxR`, the result-array
size): when the buffer reports a larger count, only the first `maxR`
entries are read and converted and the rest are discarded; and every
drain whatsoever produces at most `maxR` solutions, so the fixed-size
result array is never indexed past its capacity. -/
theorem drain_bounded_results (B N maxR : Nat) (env : RoundEnv) (s : SState)
    (j : Nat) (h : maxR < env.counts j) :
    solutionNonces (drainSlot B N maxR env s j).2 =
      (List.range maxR).map
        (fun i => u64add (u64sub s.nonce (B * N)) (env.gids j i)) ∧
    (∀ (env2 : RoundEnv) (s2 : SState) (j2 : Nat),
      (solutionNonces (drainSlot B N maxR env2 s2 j2).2).length ≤ maxR) := by
  constructor
  · by_cases hmax : maxR = 0
    · have hfc : min (env.counts j) maxR = 0 := by omega
      by_cases hs : env.stops j = true <;>
        simp [drainSlot, hs, hfc, hmax, solutionNonces_append, solutionNonces] <;>
        split <;> simp [solutionNonces]
    · have hmin : min (env.counts j) maxR = maxR := by omega
      have h2 := (drain_sols_spec B N maxR env s j (by omega)).1
      rw [hmin] at h2
      exact h2
  · intro env2 s2 j2
    exact drain_length_le B N maxR env2 s2 j2

theorem drain_bounded_results_witness :
    (solutionNonces (drainSlot 1 1 4 overflowEnv primedState 0).2 =
      (List.range 4).map
        (fun i => u64add (u64sub primedState.nonce (1 * 1))
          (overflowEnv.gids 0 i))) ∧
    (∀ (env2 : RoundEnv) (s2 : SState) (j2 : Nat),
      (solutionNonces (drainSlot 1 1 4 env2 s2 j2).2).length ≤ 4) :=
  drain_bounded_results 1 1 4 overflowEnv primedState 0 (by decide)

/-! ## C6: shutdown at the sequential-load barrier (corrected) -/

/-- C6 counterexample: with shutdown requested while the shared load
counter (stuck at 0) is below the worker's index (1), `init` never
completes — the barrier loop re-blocks forever because its condition
checks only the counter, never `shouldStop()` — so it does not abort
with `false` within any bounded delay, contrary to the claim. -/
theorem seq_wait_stop_cex :
    ¬ ∃ (fuel : Nat) (r : Bool × MinerState × List InitEvent),
        initModel fuel stuckInput ctx0 st0 = some r := by
  rintro ⟨fuel, r, hr⟩
  have h : ∀ f k, seqWaitFuel f (fun _ => 0) k 1 = none := by
    intro f
    induction f with
    | zero => intro k; rfl
    | succ n ih => intro k; simpa [seqWaitFuel] using ih (k + 1)
  rw [initModel, if_pos (by rfl)] at hr
  rw [show stuckInput.cseq = fun _ => 0 from rfl,
    show stuckInput.index = 1 from rfl, h fuel 0] at hr
  exact Option.noConfusion hr

/-- C6 (amended): shutdown requested while a worker sits at the
sequential-load barrier is honoured only once the shared load counter
reaches the worker's index: when the barrier loop exits (counter no
longer below the index) with shutdown pending, `init` aborts, returning
`false`, with no device interaction; shutdown alone does not terminate
the wait while the counter remains below the index (each individual
wait is bounded by its 3-second timeout, but the loop re-blocks). -/
theorem seq_wait_stop_abort (fuel : Nat) (inp : InitInput) (ctx : EpochContext)
    (st : MinerState) (hseq : inp.seqMode = true) (hstop : inp.stopFlag = true)
    (hbar : seqWaitFuel fuel inp.cseq 0 inp.index = some ()) :
    initModel fuel inp ctx st = some (false, st, []) := by
  rw [initModel, if_pos (by simp [hseq]), hbar]
  simp [hstop]

theorem seq_wait_stop_abort_witness :
    passedInput.seqMode = true ∧ passedInput.stopFlag = true ∧
      initModel 2 passedInput ctx0 st0 = some (false, st0, []) :=
  ⟨rfl, rfl, seq_wait_stop_abort 2 passedInput ctx0 st0 rfl rfl (by decide)⟩

/-! ## C5: single consumption of the new-work flag -/

theorem noIssues_solutions (j : Nat) (f : Nat → Nat) (l : List Nat) :
    noIssues (l.map (fun i => SEvent.solution j (f i))) = true := by
  simp [noIssues, List.all_map, Function.comp, isIssue]

theorem hasMark_solutions (j : Nat) (f : Nat → Nat) (l : List Nat) :
    hasMark (l.map (fun i => SEvent.solution j (f i))) = false := by
  simp [hasMark, List.any_map, Function.comp, isMark]

theorem consumeCount_solutions (j : Nat) (f : Nat → Nat) (l : List Nat) :
    consumeCount (l.map (fun i => SEvent.solution j (f i))) = 0 := by
  simp [consumeCount, List.countP_map, Function.comp, isConsume]

theorem stageOK_nil (s : SState) : stageOK s (s, []) :=
  ⟨rfl, by simp [hasMark], fun h => ⟨h, rfl⟩, rfl⟩

theorem stage_comp (s : SState) (r1 r2 : SState × List SEvent)
    (h1 : stageOK s r1) (h2 : stageOK r1.1 r2) :
    stageOK s (r2.1, r1.2 ++ r2.2) := by
  obtain ⟨c1, m1, d1, k1⟩ := h1
  obtain ⟨c2, m2, d2, k2⟩ := h2
  refine ⟨?_, ?_, ?_, ?_⟩
  · exact clean_append _ _ c1 c2 (fun hm => (d2 (m1 hm)).2)
  · intro hm
    rw [hasMark_append] at hm
    rcases Bool.or_eq_true_iff.mp hm with h | h
    · exact (d2 (m1 h)).1
    · exact m2 h
  · intro hd
    obtain ⟨e1, e2⟩ := d1 hd
    obtain ⟨e3, e4⟩ := d2 e1
    exact ⟨e3, by rw [noIssues_append, e2, e4]; rfl⟩
  · rw [consumeCount_append, k1, k2]

theorem drainSlot_stageOK (B N maxR : Nat) (env : RoundEnv) (s : SState)
    (j : Nat) : stageOK s (drainSlot B N maxR env s j) := by
  refine ⟨?_, ?_, ?_, ?_⟩ <;>
    by_cases hs : env.stops j = true <;>
      by_cases hz : min (env.counts j) maxR = 0 <;>
        by_cases hd : s.done = true <;>
          simp [drainSlot, hs, hz, hd, cleanAfterMark, noIssues, hasMark,
            consumeCount, isConsume, isMark, isIssue, List.all_map, List.any_map,
            List.countP_map, Function.comp, List.countP_cons] <;>
          (try (rintro x i hi1 hi2 rfl; rfl)) <;>
          (try (apply cleanAfterMark_of_noMark
                simp [hasMark, isMark, List.any_map, List.any_append,
                  Function.comp])) <;>
          (try (rintro x i hi1 hi2 rfl; rfl))

theorem foldSlots_drain_stageOK (B N maxR : Nat) (env : RoundEnv) :
    ∀ (js : List Nat) (s : SState),
      stageOK s (foldSlots (drainSlot B N maxR env) js s) := by
  intro js
  induction js with
  | nil => intro s; exact stageOK_nil s
  | cons j rest ih =>
    intro s
    rw [foldSlots_cons]
    exact stage_comp s _ _ (drainSlot_stageOK B N maxR env s j) (ih _)

theorem searchLoop_done (B N maxR : Nat) (envs : List RoundEnv) (s : SState)
    (hd : s.done = true) : searchLoop B N maxR envs s = (s, []) := by
  cases envs with
  | nil => rfl
  | cons env rest => rw [searchLoop_cons, if_pos hd]


theorem consumeCount_nil : consumeCount [] = 0 := rfl

theorem consumeCount_cons (e : SEvent) (l : List SEvent) :
    consumeCount (e :: l) = consumeCount l + if isConsume e then 1 else 0 :=
  List.countP_cons isConsume e l

theorem noIssues_nil : noIssues [] = true := rfl

theorem noIssues_cons (e : SEvent) (l : List SEvent) :
    noIssues (e :: l) = (!isIssue e && noIssues l) := List.all_cons

theorem hasMark_nil : hasMark [] = false := rfl

theorem hasMark_cons (e : SEvent) (l : List SEvent) :
    hasMark (e :: l) = (isMark e || hasMark l) := List.any_cons

theorem cleanAfterMark_nil : cleanAfterMark [] = true := rfl

theorem cleanAfterMark_cons (e : SEvent) (l : List SEvent) :
    cleanAfterMark (e :: l) =
      if isMark e then noIssues l else cleanAfterMark l := rfl

/-- A round that starts with the new-work flag observable consumes it
exactly once and is marked done.  (The flag is `s.newWork`, possibly
freshly set by a `kick_miner` since the previous check.) -/
theorem searchRound_consume (B N maxR : Nat) (env : RoundEnv) (s : SState)
    (hf : (s.newWork || env.kicked) = true) :
    consumeCount (searchRound B N maxR env s).2 = 1 ∧
    (searchRound B N maxR env s).1.done = true := by
  have hcas : casStep env s
      = ({ s with newWork := false, done := true }, [SEvent.consume]) := by
    simp [casStep, hf]
  obtain ⟨fc, fm, fd, fk⟩ := foldSlots_drain_stageOK B N maxR env (List.range N)
    { s with newWork := false, done := true }
  obtain ⟨fdone, fnoiss⟩ := fd rfl
  constructor
  · by_cases hse : env.stopEnd = true <;>
      simp [searchRound, hcas, hse, consumeCount_append, consumeCount_cons,
        consumeCount_nil, fk, isConsume]
  · by_cases hse : env.stopEnd = true <;>
      simp [searchRound, hcas, hse, fdone]

theorem searchRound_props (B N maxR : Nat) (env : RoundEnv) (s : SState)
    (hd : s.done = false) :
    cleanAfterMark (searchRound B N maxR env s).2 = true ∧
    consumeCount (searchRound B N maxR env s).2 ≤ 1 ∧
    ((searchRound B N maxR env s).1.done = false →
      consumeCount (searchRound B N maxR env s).2 = 0 ∧
      hasMark (searchRound B N maxR env s).2 = false) := by
  by_cases hflag : (s.newWork || env.kicked) = true
  · have hcas : casStep env s
        = ({ s with newWork := false, done := true }, [SEvent.consume]) := by
      simp [casStep, hflag]
    obtain ⟨fc, fm, fd, fk⟩ := foldSlots_drain_stageOK B N maxR env
      (List.range N) { s with newWork := false, done := true }
    obtain ⟨fdone, fnoiss⟩ := fd rfl
    have hdone : (searchRound B N maxR env s).1.done = true := by
      by_cases hse : env.stopEnd = true <;>
        simp [searchRound, hcas, hse, fdone]
    refine ⟨?_, ?_, ?_⟩
    · by_cases hse : env.stopEnd = true <;>
        simp [searchRound, hcas, hse, cleanAfterMark_cons, isMark,
          noIssues_append, noIssues_cons, noIssues_nil, fnoiss, isIssue]
    · by_cases hse : env.stopEnd = true <;>
        simp [searchRound, hcas, hse, consumeCount_append, consumeCount_cons,
          consumeCount_nil, fk, isConsume]
    · intro hfalse
      rw [hdone] at hfalse
      exact Bool.noConfusion hfalse
  · have hcas : casStep env s
        = ({ s with newWork := false, done := false }, []) := by
      simp [casStep, hflag]
    by_cases hp : env.pausedFlag = true
    · obtain ⟨fc, fm, fd, fk⟩ := foldSlots_drain_stageOK B N maxR env
        (List.range N) { s with newWork := false, done := true }
      obtain ⟨fdone, fnoiss⟩ := fd rfl
      have hdone : (searchRound B N maxR env s).1.done = true := by
        by_cases hse : env.stopEnd = true <;>
          simp [searchRound, hcas, hp, hse, fdone]
      refine ⟨?_, ?_, ?_⟩
      · by_cases hse : env.stopEnd = true <;>
          simp [searchRound, hcas, hp, hse, cleanAfterMark_cons, isMark,
            noIssues_append, noIssues_cons, noIssues_nil, fnoiss, isIssue]
      · by_cases hse : env.stopEnd = true <;>
          simp [searchRound, hcas, hp, hse, consumeCount_append,
            consumeCount_cons, consumeCount_nil, fk, isConsume]
      · intro hfalse
        rw [hdone] at hfalse
        exact Bool.noConfusion hfalse
    · obtain ⟨fc, fm, fd, fk⟩ := foldSlots_drain_stageOK B N maxR env
        (List.range N) { s with newWork := false, done := false }
      refine ⟨?_, ?_, ?_⟩
      · by_cases hse : env.stopEnd = true <;>
          · simp only [searchRound, hcas, hp, hse]
            simp only [Bool.false_eq_true, if_false, ite_false, ite_true,
              eq_self_iff_true, if_true, List.nil_append, List.append_assoc,
              List.singleton_append, List.cons_append, List.append_nil]
            apply clean_append _ _ fc
            · by_cases hse2 : env.stopEnd = true <;>
                simp [hse2, cleanAfterMark_cons, isMark, noIssues_cons,
                  noIssues_nil, cleanAfterMark_nil, isIssue]
            · intro hm
              by_cases hse2 : env.stopEnd = true <;>
                simp [hse2, noIssues_cons, noIssues_nil, isIssue]
      · by_cases hse : env.stopEnd = true <;>
          simp [searchRound, hcas, hp, hse, consumeCount_append,
            consumeCount_cons, consumeCount_nil, fk, isConsume]
      · intro hfalse
        have hFdone : (foldSlots (drainSlot B N maxR env) (List.range N)
            { s with newWork := false, done := false }).1.done = false := by
          by_cases hse : env.stopEnd = true
          · exfalso
            have : (searchRound B N maxR env s).1.done = true := by
              simp [searchRound, hcas, hp, hse]
            rw [this] at hfalse
            exact Bool.noConfusion hfalse
          · have : (searchRound B N maxR env s).1.done =
                (foldSlots (drainSlot B N maxR env) (List.range N)
                  { s with newWork := false, done := false }).1.done := by
              simp [searchRound, hcas, hp, hse]
            rw [← this]
            exact hfalse
        have hnomark : hasMark (foldSlots (drainSlot B N maxR env)
            (List.range N)
            { s with newWork := false, done := false }).2 = false := by
          cases hmk : hasMark (foldSlots (drainSlot B N maxR env)
              (List.range N)
              { s with newWork := false, done := false }).2
          · rfl
          · rw [fm hmk] at hFdone
            exact Bool.noConfusion hFdone
        have hse : env.stopEnd = false := by
          cases hse : env.stopEnd
          · rfl
          · exfalso
            have : (searchRound B N maxR env s).1.done = true := by
              simp [searchRound, hcas, hp, hse]
            rw [this] at hfalse
            exact Bool.noConfusion hfalse
        constructor
        · simp [searchRound, hcas, hp, hse, consumeCount_append,
            consumeCount_cons, consumeCount_nil, fk, isConsume]
        · simp [searchRound, hcas, hp, hse, hasMark_append, hasMark_cons,
            hasMark_nil, hnomark, isMark]

theorem searchLoop_props (B N maxR : Nat) :
    ∀ (envs : List RoundEnv) (s : SState), s.done = false →
      cleanAfterMark (searchLoop B N maxR envs s).2 = true ∧
      consumeCount (searchLoop B N maxR envs s).2 ≤ 1 := by
  intro envs
  induction envs with
  | nil =>
    intro s hd
    exact ⟨rfl, Nat.zero_le 1⟩
  | cons env rest ih =>
    intro s hd
    rw [searchLoop_cons, if_neg (by simp [hd])]
    dsimp only
    obtain ⟨rc, rk, rimp⟩ := searchRound_props B N maxR env s hd
    by_cases hdone : (searchRound B N maxR env s).1.done = true
    · rw [searchLoop_done B N maxR rest _ hdone]
      dsimp only
      rw [List.append_nil]
      exact ⟨rc, rk⟩
    · have hd2 : (searchRound B N maxR env s).1.done = false := by
        cases h : (searchRound B N maxR env s).1.done
        · rfl
        · exact absurd h hdone
      obtain ⟨rzero, rnomark⟩ := rimp hd2
      obtain ⟨ic, ik⟩ := ih _ hd2
      constructor
      · refine clean_append _ _ rc ic ?_
        intro hm
        rw [rnomark] at hm
        exact Bool.noConfusion hm
      · rw [consumeCount_append, rzero]
        simpa using ik

theorem foldSlots_prime_noMark (B : Nat) :
    ∀ (js : List Nat) (s : SState),
      hasMark (foldSlots (primeOne B) js s).2 = false ∧
      consumeCount (foldSlots (primeOne B) js s).2 = 0 := by
  intro js
  induction js with
  | nil => intro s; exact ⟨rfl, rfl⟩
  | cons j rest ih =>
    intro s
    rw [foldSlots_cons]
    obtain ⟨h1, h2⟩ := ih (primeOne B s j).1
    constructor
    · dsimp only
      rw [hasMark_append, h1]
      have hpr : hasMark (primeOne B s j).2 = false := by
        simp [primeOne, hasMark_cons, hasMark_nil, isMark]
      rw [hpr]
      rfl
    · dsimp only
      rw [consumeCount_append, h2]
      have hpr : consumeCount (primeOne B s j).2 = 0 := by
        simp [primeOne, consumeCount_cons, consumeCount_nil, isConsume]
      rw [hpr]

/-- C5: within one `search` invocation the atomic new-work flag is
consumed (read true and atomically cleared by the round-top
`compare_exchange_strong`) at most once, and the iteration that
consumes it is the final one; in any trace no batch is issued after a
done-marking observation (flag consumption, shutdown-triggered flag
clear, or pause); and a round whose CAS sees the flag set consumes it
exactly once and is marked done. -/
theorem new_work_single_consume (B N maxR ct tgt s0 : Nat)
    (envs : List RoundEnv) (env : RoundEnv) (s : SState)
    (hd : s.done = false) (hf : (s.newWork || env.kicked) = true) :
    consumeCount (searchModel B N maxR ct tgt s0 envs).2 ≤ 1 ∧
    cleanAfterMark (searchModel B N maxR ct tgt s0 envs).2 = true ∧
    consumeCount (searchRound B N maxR env s).2 = 1 ∧
    (searchRound B N maxR env s).1.done = true := by
  have heq : (searchModel B N maxR ct tgt s0 envs).2 =
      (SEvent.setHeader ::
          (if ct ≠ tgt then [SEvent.setTargetEv tgt] else [])) ++
        (foldSlots (primeOne B) (List.range N) (sInit s0)).2 ++
        (searchLoop B N maxR envs
          (foldSlots (primeOne B) (List.range N) (sInit s0)).1).2 := rfl
  have hpdone : (foldSlots (primeOne B) (List.range N) (sInit s0)).1.done
      = false := by
    obtain ⟨p1, _, _, _⟩ := foldSlots_prime_spec B (List.range N) (sInit s0)
      (Nat.mod_lt _ (by norm_num))
    exact p1
  obtain ⟨lc, lk⟩ := searchLoop_props B N maxR envs _ hpdone
  obtain ⟨pm, pk⟩ := foldSlots_prime_noMark B (List.range N) (sInit s0)
  have he0m : hasMark (SEvent.setHeader ::
      (if ct ≠ tgt then [SEvent.setTargetEv tgt] else [])) = false := by
    by_cases h : ct ≠ tgt <;>
      simp [h, hasMark_cons, hasMark_nil, isMark]
  have he0k : consumeCount (SEvent.setHeader ::
      (if ct ≠ tgt then [SEvent.setTargetEv tgt] else [])) = 0 := by
    by_cases h : ct ≠ tgt <;>
      simp [h, consumeCount_cons, consumeCount_nil, isConsume]
  refine ⟨?_, ?_, ?_, ?_⟩
  · rw [heq, consumeCount_append, consumeCount_append, he0k, pk]
    simpa using lk
  · rw [heq]
    refine clean_append _ _ ?_ lc ?_
    · refine clean_append _ _ ?_ ?_ ?_
      · exact cleanAfterMark_of_noMark _ he0m
      · exact cleanAfterMark_of_noMark _ pm
      · intro hm
        rw [he0m] at hm
        exact Bool.noConfusion hm
    · intro hm
      rw [hasMark_append, he0m, pm] at hm
      simp at hm
  · exact (searchRound_consume B N maxR env s hf).1
  · exact (searchRound_consume B N maxR env s hf).2

theorem new_work_single_consume_witness :
    consumeCount (searchModel 1 2 4 0 1 7 [kickedRound]).2 ≤ 1 ∧
    cleanAfterMark (searchModel 1 2 4 0 1 7 [kickedRound]).2 = true ∧
    consumeCount (searchRound 1 2 4 kickedRound primedState).2 = 1 ∧
    (searchRound 1 2 4 kickedRound primedState).1.done = true :=
  new_work_single_consume 1 2 4 0 1 7 [kickedRound] kickedRound primedState
    rfl (by decide)

/-! ## C1 (over every execution): the issued bases of any trace -/

theorem issueBases_map_solution (j : Nat) (f : Nat → Nat) (l : List Nat) :
    issueBases (l.map (fun i => SEvent.solution j (f i))) = [] := by
  induction l with
  | nil => rfl
  | cons x r ih => simp [issueBases, ih]

theorem noIssues_issueBases (l : List SEvent) (h : noIssues l = true) :
    issueBases l = [] := by
  induction l with
  | nil => rfl
  | cons e r ih =>
    have h1 : (!isIssue e) = true ∧ noIssues r = true := by
      simpa [noIssues, List.all_cons] using h
    cases e <;>
      simp only [issueBases] <;>
      first
        | exact ih h1.2
        | simp [isIssue] at h1

/-- Processing one slot always advances `start_nonce` by one batch
(the for-loop update runs whether or not the slot is reissued). -/
theorem drainSlot_nonce (B N maxR : Nat) (env : RoundEnv) (s : SState)
    (j : Nat) : (drainSlot B N maxR env s j).1.nonce = u64add s.nonce B := by
  by_cases hs : env.stops j = true <;>
    by_cases hz : min (env.counts j) maxR = 0 <;>
      by_cases hd : s.done = true <;>
        simp [drainSlot, hs, hz, hd]

/-- The `done` flag after processing one slot: set by a `shouldStop()`
observed at this slot's synchronize, otherwise carried over. -/
theorem drainSlot_done (B N maxR : Nat) (env : RoundEnv) (s : SState)
    (j : Nat) :
    (drainSlot B N maxR env s j).1.done = (env.stops j || s.done) := by
  by_cases hs : env.stops j = true <;>
    by_cases hz : min (env.counts j) maxR = 0 <;>
      by_cases hd : s.done = true <;>
        simp [drainSlot, hs, hz, hd]

/-- A slot that is not done (no stop observed) is reissued at the
current `start_nonce`, whatever its buffer reported. -/
theorem drainSlot_bases_go (B N maxR : Nat) (env : RoundEnv) (s : SState)
    (j : Nat) (hd : s.done = false) (hs : env.stops j = false) :
    issueBases (drainSlot B N maxR env s j).2 = [s.nonce] := by
  by_cases hz : min (env.counts j) maxR = 0 <;>
    simp [drainSlot, hs, hz, hd, issueBases_append, issueBases,
      issueBases_map_solution]

/-- A slot processed after the round went done (or whose own stop marks
it done) is drained but not reissued. -/
theorem drainSlot_bases_skip (B N maxR : Nat) (env : RoundEnv) (s : SState)
    (j : Nat) (h : env.stops j = true ∨ s.done = true) :
    issueBases (drainSlot B N maxR env s j).2 = [] := by
  rcases h with h | h
  · by_cases hz : min (env.counts j) maxR = 0 <;>
      by_cases hd : s.done = true <;>
        simp [drainSlot, h, hz, hd, issueBases_append, issueBases,
          issueBases_map_solution]
  · by_cases hs : env.stops j = true <;>
      by_cases hz : min (env.counts j) maxR = 0 <;>
        simp [drainSlot, hs, hz, h, issueBases_append, issueBases,
          issueBases_map_solution]

/-- A whole slot sweep advances `start_nonce` by one batch per slot,
independently of drains and stops. -/
theorem foldSlots_drain_nonce (B N maxR : Nat) (env : RoundEnv) :
    ∀ (js : List Nat) (s : SState), s.nonce < 2 ^ 64 →
      (foldSlots (drainSlot B N maxR env) js s).1.nonce
        = u64add s.nonce (js.length * B) := by
  intro js
  induction js with
  | nil =>
    intro s hn
    simp [foldSlots, u64add_zero_eq s.nonce hn]
  | cons j rest ih =>
    intro s hn
    rw [foldSlots_cons]
    dsimp only
    rw [ih (drainSlot B N maxR env s j).1
        (by rw [drainSlot_nonce]; exact u64add_lt _ _),
      drainSlot_nonce, u64add_add, List.length_cons]
    congr 1
    rw [Nat.succ_mul]
    ring

/-- In any environment, the bases issued during a slot sweep entered
with `done = false` are the exact contiguous prefix
`s.nonce, s.nonce+B, …` of length `m` for some `m`; the sweep issues
all its slots (`m` = slot count) whenever it ends with `done` still
false. -/
theorem foldSlots_drain_bases (B N maxR : Nat) (env : RoundEnv) :
    ∀ (js : List Nat) (s : SState), s.done = false → s.nonce < 2 ^ 64 →
      ∃ m, m ≤ js.length ∧
        issueBases (foldSlots (drainSlot B N maxR env) js s).2 =
          (List.range m).map (fun k => u64add s.nonce (k * B)) ∧
        ((foldSlots (drainSlot B N maxR env) js s).1.done = false →
          m = js.length) := by
  intro js
  induction js with
  | nil =>
    intro s hd hn
    exact ⟨0, Nat.le_refl 0, rfl, fun _ => rfl⟩
  | cons j rest ih =>
    intro s hd hn
    rw [foldSlots_cons]
    dsimp only
    by_cases hs : env.stops j = true
    · have hdone : (drainSlot B N maxR env s j).1.done = true := by
        rw [drainSlot_done, hs]
        rfl
      obtain ⟨fc2, fm2, fd2, fk2⟩ := foldSlots_drain_stageOK B N maxR env rest
        (drainSlot B N maxR env s j).1
      obtain ⟨rdone, rnoiss⟩ := fd2 hdone
      refine ⟨0, Nat.zero_le _, ?_, ?_⟩
      · rw [issueBases_append, drainSlot_bases_skip B N maxR env s j (Or.inl hs),
          noIssues_issueBases _ rnoiss]
        rfl
      · intro hfalse
        rw [rdone] at hfalse
        exact Bool.noConfusion hfalse
    · have hs' : env.stops j = false := by
        cases h : env.stops j
        · rfl
        · exact absurd h hs
      have hdone : (drainSlot B N maxR env s j).1.done = false := by
        rw [drainSlot_done, hs', hd]
        rfl
      obtain ⟨m', hm'le, hm'b, hm'full⟩ := ih (drainSlot B N maxR env s j).1
        hdone (by rw [drainSlot_nonce]; exact u64add_lt _ _)
      simp only [drainSlot_nonce] at hm'b
      refine ⟨m' + 1, by simpa using hm'le, ?_, ?_⟩
      · rw [issueBases_append, drainSlot_bases_go B N maxR env s j hd hs', hm'b,
          List.range_succ_eq_map, List.map_cons, List.map_map]
        show s.nonce :: _ = _
        congr 1
        · simp [u64add_zero_eq s.nonce hn]
        · apply List.map_congr_left
          intro k _
          simp only [Function.comp_apply, u64add_add]
          congr 1
          rw [Nat.succ_mul]
          ring
      · intro hfalse
        rw [List.length_cons]
        have := hm'full hfalse
        omega

/-- Projections of one round onto the slot sweep it contains: the
round's issued bases are the sweep's, the round is done iff the sweep
ended done or the end-of-round stop fired, and the nonce advance is the
sweep's — entering the sweep from `casPauseState env s`. -/
theorem searchRound_trace_shape (B N maxR : Nat) (env : RoundEnv) (s : SState) :
    issueBases (searchRound B N maxR env s).2 =
      issueBases (foldSlots (drainSlot B N maxR env) (List.range N)
        (casPauseState env s)).2 ∧
    (searchRound B N maxR env s).1.done =
      (env.stopEnd ||
        (foldSlots (drainSlot B N maxR env) (List.range N)
          (casPauseState env s)).1.done) ∧
    (searchRound B N maxR env s).1.nonce =
      (foldSlots (drainSlot B N maxR env) (List.range N)
        (casPauseState env s)).1.nonce := by
  by_cases h1 : (s.newWork || env.kicked) = true <;>
    by_cases h2 : env.pausedFlag = true <;>
      by_cases h3 : env.stopEnd = true <;>
        simp [searchRound, casStep, casPauseState, h1, h2, h3,
          issueBases_append, issueBases, List.append_nil]

/-- In any environment, a round entered with `done = false` issues the
exact contiguous prefix `s.nonce, s.nonce+B, …` of some length
`m ≤ N`, advances `start_nonce` by `N·B`, and issues all `N` slots
whenever it ends with `done` still false. -/
theorem searchRound_bases (B N maxR : Nat) (env : RoundEnv) (s : SState)
    (hd : s.done = false) (hn : s.nonce < 2 ^ 64) :
    (searchRound B N maxR env s).1.nonce = u64add s.nonce (N * B) ∧
    ∃ m, m ≤ N ∧
      issueBases (searchRound B N maxR env s).2 =
        (List.range m).map (fun k => u64add s.nonce (k * B)) ∧
      ((searchRound B N maxR env s).1.done = false → m = N) := by
  obtain ⟨hb, hdn, hnn⟩ := searchRound_trace_shape B N maxR env s
  have htn : (casPauseState env s).nonce = s.nonce := rfl
  constructor
  · rw [hnn, foldSlots_drain_nonce B N maxR env (List.range N)
        (casPauseState env s) (by rw [htn]; exact hn), htn, List.length_range]
  · by_cases hdt : ((s.newWork || env.kicked) || env.pausedFlag) = true
    · have htdone : (casPauseState env s).done = true := hdt
      obtain ⟨fc2, fm2, fd2, fk2⟩ := foldSlots_drain_stageOK B N maxR env
        (List.range N) (casPauseState env s)
      obtain ⟨fdone, fnoiss⟩ := fd2 htdone
      refine ⟨0, Nat.zero_le _, ?_, ?_⟩
      · rw [hb, noIssues_issueBases _ fnoiss]
        rfl
      · intro hfalse
        rw [hdn, fdone] at hfalse
        simp at hfalse
    · have htdone : (casPauseState env s).done = false := by
        cases h : ((s.newWork || env.kicked) || env.pausedFlag)
        · exact h
        · exact absurd h hdt
      obtain ⟨m, hmle, hmb, hmfull⟩ := foldSlots_drain_bases B N maxR env
        (List.range N) (casPauseState env s) htdone (by rw [htn]; exact hn)
      simp only [htn] at hmb
      rw [List.length_range] at hmle
      refine ⟨m, hmle, ?_, ?_⟩
      · rw [hb, hmb]
      · intro hfalse
        rw [hdn] at hfalse
        have hsplit := Bool.or_eq_false_iff.mp hfalse
        have := hmfull hsplit.2
        rw [List.length_range] at this
        exact this

/-- In any environment, the bases issued by the round loop are the
exact contiguous prefix `s.nonce, s.nonce+B, …` of some length `n`;
when the loop consumed all its rounds without going done, `n` is
exactly `rounds·N` and the nonce advanced accordingly. -/
theorem searchLoop_bases (B N maxR : Nat) :
    ∀ (envs : List RoundEnv) (s : SState), s.done = false →
      s.nonce < 2 ^ 64 →
      ∃ n,
        issueBases (searchLoop B N maxR envs s).2 =
          (List.range n).map (fun k => u64add s.nonce (k * B)) ∧
        ((searchLoop B N maxR envs s).1.done = false →
          n = envs.length * N ∧
          (searchLoop B N maxR envs s).1.nonce
            = u64add s.nonce (envs.length * N * B)) := by
  intro envs
  induction envs with
  | nil =>
    intro s hd hn
    refine ⟨0, rfl, fun _ => ⟨by simp, ?_⟩⟩
    show s.nonce = u64add s.nonce (List.length [] * N * B)
    rw [List.length_nil, Nat.zero_mul, Nat.zero_mul,
      u64add_zero_eq s.nonce hn]
  | cons env rest ih =>
    intro s hd hn
    rw [searchLoop_cons, if_neg (by simp [hd])]
    dsimp only
    obtain ⟨rnonce, m, hmle, hmb, hmfull⟩ := searchRound_bases B N maxR env s hd hn
    by_cases hdone : (searchRound B N maxR env s).1.done = true
    · rw [searchLoop_done B N maxR rest _ hdone]
      dsimp only
      rw [List.append_nil]
      refine ⟨m, hmb, ?_⟩
      intro hfalse
      rw [hdone] at hfalse
      exact Bool.noConfusion hfalse
    · have hd2 : (searchRound B N maxR env s).1.done = false := by
        cases h : (searchRound B N maxR env s).1.done
        · rfl
        · exact absurd h hdone
      have hm : m = N := hmfull hd2
      obtain ⟨n', hn'b, hn'full⟩ := ih (searchRound B N maxR env s).1 hd2
        (by rw [rnonce]; exact u64add_lt _ _)
      simp only [rnonce] at hn'b
      refine ⟨N + n', ?_, ?_⟩
      · rw [issueBases_append, hmb, hm, hn'b, map_range_add_u64]
      · intro hfalse
        obtain ⟨hn'len, hn'nonce⟩ := hn'full hfalse
        constructor
        · rw [List.length_cons, hn'len]
          ring
        · rw [hn'nonce, rnonce, u64add_add, List.length_cons]
          congr 1
          ring

/-- In any environment, the bases issued by a whole `search` trace
(priming plus the loop) are the exact contiguous prefix
`s0, s0+B, …` of some length `n`; when no stopping condition was ever
observed (the final state is not done, i.e. every loop round ran to
completion), `n` is exactly `(rounds+1)·N`. -/
theorem searchModel_bases (B N maxR ct tgt s0 : Nat) (envs : List RoundEnv) :
    ∃ n,
      issueBases (searchModel B N maxR ct tgt s0 envs).2 =
        (List.range n).map (fun k => u64add s0 (k * B)) ∧
      ((searchModel B N maxR ct tgt s0 envs).1.done = false →
        n = (envs.length + 1) * N) := by
  have hinit : (sInit s0).nonce < 2 ^ 64 := Nat.mod_lt _ (by norm_num)
  obtain ⟨p1, p2, p3, p4⟩ := foldSlots_prime_spec B (List.range N) (sInit s0)
    hinit
  obtain ⟨n', hn'b, hn'full⟩ := searchLoop_bases B N maxR envs
    (foldSlots (primeOne B) (List.range N) (sInit s0)).1 p1
    (by rw [p3]; exact u64add_lt _ _)
  have heq2 : (searchModel B N maxR ct tgt s0 envs).2 =
      (SEvent.setHeader ::
          (if ct ≠ tgt then [SEvent.setTargetEv tgt] else [])) ++
        (foldSlots (primeOne B) (List.range N) (sInit s0)).2 ++
        (searchLoop B N maxR envs
          (foldSlots (primeOne B) (List.range N) (sInit s0)).1).2 := rfl
  have heq1 : (searchModel B N maxR ct tgt s0 envs).1 =
      (searchLoop B N maxR envs
        (foldSlots (primeOne B) (List.range N) (sInit s0)).1).1 := rfl
  have he0 : issueBases
      (SEvent.setHeader ::
        (if ct ≠ tgt then [SEvent.setTargetEv tgt] else [])) = [] := by
    by_cases h : ct ≠ tgt <;> simp [h, issueBases]
  refine ⟨N + n', ?_, ?_⟩
  · rw [heq2, issueBases_append, issueBases_append, he0, p4]
    simp only [p3, List.length_range] at hn'b
    rw [hn'b, List.nil_append]
    have hm : (sInit s0).nonce = s0 % 2 ^ 64 := rfl
    simp only [hm, u64add_mod_left]
    rw [map_range_add_u64, List.length_range]
  · intro hfalse
    rw [heq1] at hfalse
    obtain ⟨hlen, _⟩ := hn'full hfalse
    rw [hlen]
    ring

/-- Under the no-overflow side condition, a contiguous base prefix
`s0, s0+B, …, s0+(n-1)·B` sheds its `mod 2^64` reductions and its
batches are monotone, pairwise disjoint and cover `[s0, s0 + n·B)`. -/
theorem bases_prefix_props (B s0 n : Nat) (hs0 : s0 < 2 ^ 64)
    (hfit : s0 + n * B ≤ 2 ^ 64) :
    (List.range n).map (fun k => u64add s0 (k * B)) =
      (List.range n).map (fun k => s0 + k * B) ∧
    List.Pairwise (· ≤ ·) ((List.range n).map (fun k => s0 + k * B)) ∧
    List.Pairwise
      (fun a b => Disjoint (Finset.Ico a (a + B)) (Finset.Ico b (b + B)))
      ((List.range n).map (fun k => s0 + k * B)) ∧
    rangesUnion B ((List.range n).map (fun k => s0 + k * B)) =
      Finset.Ico s0 (s0 + n * B) := by
  have hlt : ∀ k, k < n → s0 + k * B < 2 ^ 64 := by
    intro k hk
    rcases Nat.eq_zero_or_pos B with hB | hB
    · simpa [hB] using hs0
    · have h2 : (k + 1) * B ≤ n * B := Nat.mul_le_mul_right B (by omega)
      rw [Nat.succ_mul] at h2
      linarith
  refine ⟨?_, ?_, ?_, ?_⟩
  · apply List.map_congr_left
    intro k hk
    exact Nat.mod_eq_of_lt (hlt k (List.mem_range.mp hk))
  · rw [List.pairwise_map]
    refine (List.pairwise_lt_range n).imp ?_
    intro a b hab
    exact Nat.add_le_add_left (Nat.mul_le_mul_right B (Nat.le_of_lt hab)) s0
  · rw [List.pairwise_map]
    refine (List.pairwise_lt_range n).imp ?_
    intro a b hab
    have hle : s0 + a * B + B ≤ s0 + b * B := by
      have h2 : (a + 1) * B ≤ b * B := Nat.mul_le_mul_right B hab
      rw [Nat.succ_mul] at h2
      linarith
    refine Finset.disjoint_left.mpr ?_
    intro x hx1 hx2
    rw [Finset.mem_Ico] at hx1 hx2
    linarith [hx1.2, hx2.1]
  · exact rangesUnion_map_range B n s0

/-- C1 (amended, over every execution): for stream count `N ≥ 1` and
any batch size `B`, in **every** execution of `search` — the round
environments `envs` carry arbitrary per-slot result counts and gids,
kicks, pauses and stops — the issued batch bases form the exact
contiguous prefix `s0, s0+B, s0+2·B, …` of the arithmetic progression
(second conjunct), so drained and reissued slots always continue at
the right base; and whenever the execution runs `r` full rounds — the
priming pass plus `r-1` loop rounds none of which was interrupted,
which is exactly the final state not being done — then **provided the
issued nonces do not overflow 64 bits** (`s0 + r·N·B ≤ 2^64`, with
`s0 < 2^64` the `uint64_t` start nonce) the bases are exactly
`s0, …, s0+(r·N-1)·B` in order, each slot's base advancing by `B` per
slot within a round and by `N·B` from one of its batches to the next,
monotone, pairwise disjoint, with union exactly `[s0, s0 + r·N·B)`;
interrupted executions likewise satisfy monotonicity, disjointness and
contiguity over the `n` batches they did issue. -/
theorem nonce_ranges_partition (B N maxR ct tgt s0 r : Nat)
    (envs : List RoundEnv) (hN : 1 ≤ N) (hr : r = envs.length + 1)
    (hs0 : s0 < 2 ^ 64) (hfit : s0 + r * N * B ≤ 2 ^ 64)
    (hfull : (searchModel B N maxR ct tgt s0 envs).1.done = false) :
    noncePartitionSpec B N s0 r
      (issueBases (searchModel B N maxR ct tgt s0 envs).2) ∧
    ∀ envs2 : List RoundEnv, ∃ n,
      issueBases (searchModel B N maxR ct tgt s0 envs2).2 =
        (List.range n).map (fun k => u64add s0 (k * B)) ∧
      (s0 + n * B ≤ 2 ^ 64 →
        List.Pairwise (· ≤ ·)
          (issueBases (searchModel B N maxR ct tgt s0 envs2).2) ∧
        List.Pairwise
          (fun a b => Disjoint (Finset.Ico a (a + B)) (Finset.Ico b (b + B)))
          (issueBases (searchModel B N maxR ct tgt s0 envs2).2) ∧
        rangesUnion B (issueBases (searchModel B N maxR ct tgt s0 envs2).2) =
          Finset.Ico s0 (s0 + n * B)) := by
  constructor
  · obtain ⟨n, hb, himp⟩ := searchModel_bases B N maxR ct tgt s0 envs
    have hn : n = r * N := by
      rw [himp hfull, hr]
    rw [hn] at hb
    obtain ⟨hcast, hpw1, hpw2, hun⟩ := bases_prefix_props B s0 (r * N) hs0 hfit
    have hL : issueBases (searchModel B N maxR ct tgt s0 envs).2
        = (List.range (r * N)).map (fun k => s0 + k * B) := by
      rw [hb, hcast]
    rw [hL]
    have hidx : ∀ i, i < r * N →
        ((List.range (r * N)).map (fun k => s0 + k * B))[i]?
          = some (s0 + i * B) := by
      intro i hi
      rw [List.getElem?_map, List.getElem?_range hi]
      rfl
    unfold noncePartitionSpec
    refine ⟨rfl, ?_, ?_, hpw1, hpw2, hun⟩
    · intro rd j h1 h2
      apply hidx
      have h3 : (rd + 1) * N ≤ r * N := Nat.mul_le_mul_right N (by omega)
      rw [Nat.succ_mul] at h3
      omega
    · intro rd j h1 h2
      have hbnd : (rd + 1) * N + j < r * N := by
        have h3 : (rd + 1 + 1) * N ≤ r * N := Nat.mul_le_mul_right N (by omega)
        rw [Nat.succ_mul] at h3
        have h4 : 0 < N := hN
        omega
      rw [hidx _ hbnd]
      have hv : s0 + ((rd + 1) * N + j) * B = s0 + (rd * N + j) * B + N * B := by
        ring
      rw [hv]
  · intro envs2
    obtain ⟨n, hb, _⟩ := searchModel_bases B N maxR ct tgt s0 envs2
    refine ⟨n, hb, ?_⟩
    intro hfit2
    obtain ⟨hcast, hpw1, hpw2, hun⟩ := bases_prefix_props B s0 n hs0 hfit2
    rw [hb, hcast]
    exact ⟨hpw1, hpw2, hun⟩

theorem nonce_ranges_partition_witness :
    1 ≤ 2 ∧ (2 = ([overflowEnv] : List RoundEnv).length + 1) ∧
      (5 : Nat) < 2 ^ 64 ∧ 5 + 2 * 2 * 3 ≤ 2 ^ 64 ∧
      (searchModel 3 2 4 0 1 5 [overflowEnv]).1.done = false ∧
      (noncePartitionSpec 3 2 5 2
          (issueBases (searchModel 3 2 4 0 1 5 [overflowEnv]).2) ∧
        ∀ envs2 : List RoundEnv, ∃ n,
          issueBases (searchModel 3 2 4 0 1 5 envs2).2 =
            (List.range n).map (fun k => u64add 5 (k * 3)) ∧
          (5 + n * 3 ≤ 2 ^ 64 →
            List.Pairwise (· ≤ ·)
              (issueBases (searchModel 3 2 4 0 1 5 envs2).2) ∧
            List.Pairwise
              (fun a b =>
                Disjoint (Finset.Ico a (a + 3)) (Finset.Ico b (b + 3)))
              (issueBases (searchModel 3 2 4 0 1 5 envs2).2) ∧
            rangesUnion 3 (issueBases (searchModel 3 2 4 0 1 5 envs2).2) =
              Finset.Ico 5 (5 + n * 3))) :=
  ⟨by norm_num, by decide, by norm_num, by norm_num, by decide,
    nonce_ranges_partition 3 2 4 0 1 5 2 [overflowEnv] (by norm_num)
      (by decide) (by norm_num) (by norm_num) (by decide)⟩
